import Mathlib

/-!
Verification of the line-annotating pinyin converter
(`src/pinyin_converter_fixed.py`).  The program's entry point
(`process_file`) calls `add_pinyin_preserve_format_optimized`, which is
therefore the conversion embedded here.  Strings are modelled as
`List Char`; the external `pypinyin` transliteration table is an
injected parameter `lookup : Char → List Char`, exactly as the source
treats `pinyin(char, style=Style.TONE, heteronym=False)[0][0]` as an
opaque per-character call.
-/

/-- The Unicode code points Python's `str.isspace` / `str.strip` treat as
whitespace (ASCII whitespace, the C1 separators, and the Unicode space
separators). -/
def pySpaceCodes : List Nat :=
  [0x09, 0x0a, 0x0b, 0x0c, 0x0d, 0x1c, 0x1d, 0x1e, 0x1f, 0x20, 0x85, 0xa0,
   0x1680, 0x2000, 0x2001, 0x2002, 0x2003, 0x2004, 0x2005, 0x2006, 0x2007,
   0x2008, 0x2009, 0x200a, 0x2028, 0x2029, 0x202f, 0x205f, 0x3000]

/-- Python `char.isspace()` for a single character. -/
def isPySpace (c : Char) : Bool := pySpaceCodes.contains c.toNat

/-- The qualifying test of the source: `'一' <= char <= '鿿'`
(CJK Unified Ideographs). -/
def isChinese (c : Char) : Bool := 0x4e00 ≤ c.toNat && c.toNat ≤ 0x9fff

/-- Python `s.rstrip()`: remove trailing whitespace. -/
def rstrip (s : List Char) : List Char := (s.reverse.dropWhile isPySpace).reverse

/-- Python `s.strip()`: remove leading and trailing whitespace. -/
def pyStrip (s : List Char) : List Char :=
  ((s.dropWhile isPySpace).reverse.dropWhile isPySpace).reverse

/-- One iteration of the `while i < len(line)` body of
`add_pinyin_preserve_format_optimized` (lines 334-349): a qualifying
character contributes its token plus two padding spaces
(`pinyin_line += py + "  "`); a whitespace character is copied
(`pinyin_line += char`); any other character contributes
`" " * len(char)`, i.e. a single space. -/
def pyStep (lookup : Char → List Char) (c : Char) : List Char :=
  if isChinese c then lookup c ++ [' ', ' ']
  else if isPySpace c then [c]
  else [' ']

/-- The whole `while` loop of `add_pinyin_preserve_format_optimized`
building `pinyin_line`, as a structural recursion over the line. -/
def pinyinLineOpt (lookup : Char → List Char) : List Char → List Char
  | [] => []
  | c :: cs => pyStep lookup c ++ pinyinLineOpt lookup cs

/-- The per-line body of the `for line in lines` loop of
`add_pinyin_preserve_format_optimized` (lines 319-352): blank lines and
lines without qualifying characters are appended alone; otherwise the
right-stripped `pinyin_line` is appended, then the original line. -/
def processLineOpt (lookup : Char → List Char) (line : List Char) :
    List (List Char) :=
  if pyStrip line = [] then [line]
  else if line.any isChinese = false then [line]
  else [rstrip (pinyinLineOpt lookup line), line]

/-- `result_lines` accumulated over the lines of the document. -/
def resultLines (lookup : Char → List Char) : List (List Char) → List (List Char)
  | [] => []
  | l :: ls => processLineOpt lookup l ++ resultLines lookup ls

/-- Python `text.split('\n')`. -/
def splitNl : List Char → List (List Char)
  | [] => [[]]
  | c :: cs =>
    if c = '\n' then [] :: splitNl cs
    else
      match splitNl cs with
      | [] => [[c]]
      | l :: ls => (c :: l) :: ls

/-- Python `'\n'.join(result_lines)`. -/
def joinNl : List (List Char) → List Char
  | [] => []
  | [l] => l
  | l :: l2 :: ls => l ++ '\n' :: joinNl (l2 :: ls)

/-- `add_pinyin_preserve_format_optimized` (lines 309-354): split on
newlines, process each line, join the result lines with newlines. -/
def add_pinyin_preserve_format_optimized (lookup : Char → List Char)
    (text : List Char) : List Char :=
  joinNl (resultLines lookup (splitNl text))

/-- The source's `while i < len(line)` loop verbatim: explicit index `i`
advanced by one per iteration, with an explicit fuel counter so that
non-termination would be observable as `none`. -/
def pinyinLoopFuel (lookup : Char → List Char) (line : List Char) :
    Nat → Nat → List Char → Option (List Char)
  | 0, i, acc => if i < line.length then none else some acc
  | fuel + 1, i, acc =>
    if h : i < line.length then
      pinyinLoopFuel lookup line fuel (i + 1) (acc ++ pyStep lookup (line.get ⟨i, h⟩))
    else some acc

/-- The transliterations the spec's examples fix: 你 → nǐ, 好 → hǎo. -/
def exLookup (c : Char) : List Char :=
  if c = '你' then ['n', 'ǐ']
  else if c = '好' then ['h', 'ǎ', 'o']
  else []

/-- The ASCII apostrophe, kept out of string literals. -/
def apos : String := String.singleton (Char.ofNat 39)

/-- The message printed by `process_file` when the input file is missing
(line 388 of the source). -/
def errNotFoundMsg (input : String) : String :=
  "Error: Input file " ++ apos ++ input ++ apos ++ " not found."

/-- The `"-" * 40` separator printed around the preview. -/
def dashes40 : String := "----------------------------------------"

/-- The conversion lifted to `String`. -/
def addPinyinStr (lookup : Char → List Char) (s : String) : String :=
  String.mk (add_pinyin_preserve_format_optimized lookup s.data)

/-- `process_file` (lines 357-390), over a filesystem modelled as an
association list from names to contents.  Reading a missing file takes
the `FileNotFoundError` branch: nothing is written and the error message
is printed.  Otherwise the converted text is written under the explicit
output name or the derived `name + "_pinyin" + ext` name, where the
external `os.path.splitext` is the injected parameter `sx`; the printed
messages mirror the source's `print` calls. -/
def process_file (lookup : Char → List Char) (sx : String → String × String)
    (fs : List (String × String)) (input : String) (output : Option String) :
    List (String × String) × List String :=
  match List.lookup input fs with
  | none => (fs, [errNotFoundMsg input])
  | some text =>
    let pin := addPinyinStr lookup text
    let outName :=
      match output with
      | some o => o
      | none => (sx input).1 ++ "_pinyin" ++ (sx input).2
    ((outName, pin) :: fs,
     ["Successfully processed: " ++ input, "Output saved as: " ++ outName,
      "\nPreview:", dashes40, pin, dashes40])

/-- C1: the claim fails on the code.  In the line 你好 the qualifying
character 好 sits at column 1 and its token is hǎo, but the pre-trim
pinyin line built by `add_pinyin_preserve_format_optimized` is
`nǐ  hǎo  `, whose column 1 holds ǐ, not the token's first character h:
the two padding spaces appended after each token shift every later token
off its column. -/
theorem c1_code_misaligns_second_token :
    isChinese '好' = true ∧
    pinyinLineOpt exLookup ['你', '好'] = ['n', 'ǐ', ' ', ' ', 'h', 'ǎ', 'o', ' ', ' '] ∧
    (pinyinLineOpt exLookup ['你', '好'])[1]? = some 'ǐ' ∧ 'ǐ' ≠ 'h' := by
  decide

/-- C2: the claim fails on the code.  The line 你 has length 1 and
contains a qualifying character, yet the pre-trim pinyin line built by
`add_pinyin_preserve_format_optimized` is `nǐ  ` of length 4: the buffer
is token-driven, not bounded by the line length. -/
theorem c2_code_length_exceeds_line :
    (['你'] : List Char).any isChinese = true ∧
    (pinyinLineOpt exLookup ['你']).length = 4 ∧
    (['你'] : List Char).length = 1 := by
  decide

/-- C4: the claim fails on the code.  For the one-character line 你 with
token nǐ, `add_pinyin_preserve_format_optimized` emits the annotation
line nǐ (the full token, trimmed of padding), not the truncated n the
claim requires: the code never truncates tokens to the line length. -/
theorem c4_code_does_not_truncate :
    processLineOpt exLookup ['你'] = [['n', 'ǐ'], ['你']] ∧
    (['n', 'ǐ'] : List Char) ≠ ['n'] := by
  decide

/-- C5: the claim fails on the code.  A tab is a pass-through character,
yet for the line consisting of a tab followed by 你 the emitted
annotation line starts with that tab: the whitespace branch of the loop
copies the character itself (`pinyin_line += char`), so a pass-through
tab contributes a non-space character at a column no token occupies. -/
theorem c5_code_copies_tab :
    isChinese '\t' = false ∧
    processLineOpt exLookup ['\t', '你'] = [['\t', 'n', 'ǐ'], ['\t', '你']] ∧
    ('\t' : Char) ≠ ' ' := by
  decide

/-- C8: the claim fails on the code.  On the line `你好, world` the
emitted annotation line of `add_pinyin_preserve_format_optimized` is
`nǐ  hǎo` (padding spaces between the tokens survive the trim), not the
claimed `nǐhǎo`. -/
theorem c8_code_output_differs :
    processLineOpt exLookup ['你', '好', ',', ' ', 'w', 'o', 'r', 'l', 'd'] =
      [['n', 'ǐ', ' ', ' ', 'h', 'ǎ', 'o'],
       ['你', '好', ',', ' ', 'w', 'o', 'r', 'l', 'd']] ∧
    (['n', 'ǐ', ' ', ' ', 'h', 'ǎ', 'o'] : List Char) ≠ ['n', 'ǐ', 'h', 'ǎ', 'o'] := by
  decide

/-- The head surviving `dropWhile isPySpace` is not whitespace. -/
theorem head?_dropWhile_pySpace :
    ∀ (l : List Char) (c : Char), (l.dropWhile isPySpace).head? = some c →
      isPySpace c = false := by
  intro l
  induction l with
  | nil => intro c h; simp [List.dropWhile] at h
  | cons a l ih =>
    intro c h
    by_cases ha : isPySpace a
    · rw [List.dropWhile_cons_of_pos ha] at h
      exact ih c h
    · rw [List.dropWhile_cons_of_neg ha] at h
      simp at h
      rw [← h]
      exact Bool.eq_false_iff.mpr ha

/-- The last character of an `rstrip`ped string is never whitespace. -/
theorem rstrip_getLast_not_space (s : List Char) (c : Char)
    (h : (rstrip s).getLast? = some c) : isPySpace c = false := by
  unfold rstrip at h
  rw [List.getLast?_reverse] at h
  exact head?_dropWhile_pySpace _ c h

/-- C3: pass-through invariant, confirmed.  A line with no qualifying
character is emitted alone and unchanged by the per-line body of
`add_pinyin_preserve_format_optimized`, whatever the lookup: both the
blank-line branch and the no-Chinese branch append exactly the original
line, and one of them is always taken. -/
theorem c3_pass_through (lookup : Char → List Char) (line : List Char)
    (h : ∀ c ∈ line, isChinese c = false) :
    processLineOpt lookup line = [line] := by
  have hany : line.any isChinese = false := by
    rw [List.any_eq_false]
    intro c hc
    simp [h c hc]
  unfold processLineOpt
  by_cases h1 : pyStrip line = [] <;> simp [h1, hany]

/-- Witness for C3 at the spec's example line `hello`. -/
theorem c3_pass_through_witness :
    (∀ c ∈ (['h', 'e', 'l', 'l', 'o'] : List Char), isChinese c = false) ∧
    processLineOpt exLookup ['h', 'e', 'l', 'l', 'o'] = [['h', 'e', 'l', 'l', 'o']] :=
  ⟨by decide, c3_pass_through exLookup ['h', 'e', 'l', 'l', 'o'] (by decide)⟩

/-- C6: confirmed.  Whenever the per-line body of
`add_pinyin_preserve_format_optimized` emits an annotation line (the
two-element case), that line was right-stripped, so it does not end in
any whitespace character. -/
theorem c6_trailing_ws_trimmed (lookup : Char → List Char)
    (line a l2 : List Char) (h : processLineOpt lookup line = [a, l2]) :
    ∀ c, a.getLast? = some c → isPySpace c = false := by
  unfold processLineOpt at h
  by_cases h1 : pyStrip line = []
  · simp [h1] at h
  · by_cases h2 : line.any isChinese = false
    · simp [h1, h2] at h
    · simp [h1, h2] at h
      intro c hc
      exact rstrip_getLast_not_space (pinyinLineOpt lookup line) c (h.1 ▸ hc)

/-- Witness for C6 at the line 你, whose emitted annotation line is nǐ. -/
theorem c6_trailing_ws_trimmed_witness :
    processLineOpt exLookup ['你'] = [['n', 'ǐ'], ['你']] ∧
    isPySpace 'ǐ' = false :=
  ⟨by decide,
   c6_trailing_ws_trimmed exLookup ['你'] ['n', 'ǐ'] ['你'] (by decide) 'ǐ' (by decide)⟩

/-- With fuel at least the number of remaining iterations, the indexed
`while` loop finishes and computes exactly the structural pinyin line of
the unscanned suffix. -/
theorem pinyinLoopFuel_complete (lookup : Char → List Char) (line : List Char) :
    ∀ (fuel i : Nat) (acc : List Char), line.length - i ≤ fuel →
      pinyinLoopFuel lookup line fuel i acc =
        some (acc ++ pinyinLineOpt lookup (line.drop i)) := by
  intro fuel
  induction fuel with
  | zero =>
    intro i acc h
    have hle : line.length ≤ i := by omega
    have hnl : ¬ i < line.length := by omega
    unfold pinyinLoopFuel
    rw [if_neg hnl, List.drop_eq_nil_of_le hle]
    simp [pinyinLineOpt]
  | succ fuel ih =>
    intro i acc h
    unfold pinyinLoopFuel
    by_cases hi : i < line.length
    · rw [dif_pos hi]
      rw [ih (i + 1) (acc ++ pyStep lookup (line.get ⟨i, hi⟩)) (by omega)]
      rw [List.drop_eq_getElem_cons hi]
      simp [pinyinLineOpt, List.get_eq_getElem]
    · rw [dif_neg hi]
      have hle : line.length ≤ i := by omega
      rw [List.drop_eq_nil_of_le hle]
      simp [pinyinLineOpt]

/-- C10: confirmed.  For every line and every total lookup the source's
`while i < len(line)` loop, run with its exact single-step index
advance, terminates within `len(line)` iterations and returns the very
pinyin line the conversion uses: the loop is total, no fuel beyond the
line length is ever needed. -/
theorem c10_loop_terminates (lookup : Char → List Char) (line : List Char) :
    pinyinLoopFuel lookup line line.length 0 [] =
      some (pinyinLineOpt lookup line) := by
  have := pinyinLoopFuel_complete lookup line line.length 0 [] (by omega)
  simpa using this

/-- C9: confirmed.  When the input name is absent from the filesystem,
`process_file` takes the `FileNotFoundError` branch: the filesystem is
returned untouched (no output file is created or written) and the only
message reported is the user-facing not-found error. -/
theorem c9_missing_input (lookup : Char → List Char)
    (sx : String → String × String) (fs : List (String × String))
    (input : String) (output : Option String)
    (h : List.lookup input fs = none) :
    process_file lookup sx fs input output = (fs, [errNotFoundMsg input]) := by
  unfold process_file
  rw [h]

/-- Witness for C9: the empty filesystem misses `missing.txt`. -/
theorem c9_missing_input_witness :
    List.lookup "missing.txt" ([] : List (String × String)) = none ∧
    process_file exLookup (fun s => (s, "")) [] "missing.txt" none =
      ([], [errNotFoundMsg "missing.txt"]) :=
  ⟨rfl, c9_missing_input exLookup (fun s => (s, "")) [] "missing.txt" none rfl⟩

/-- Each line contributes either itself alone or an annotation line
followed by itself. -/
theorem processLineOpt_shape (lookup : Char → List Char) (l : List Char) :
    processLineOpt lookup l = [l] ∨
      processLineOpt lookup l = [rstrip (pinyinLineOpt lookup l), l] := by
  unfold processLineOpt
  by_cases h1 : pyStrip l = []
  · left; simp [h1]
  · by_cases h2 : l.any isChinese = false
    · left; simp [h1, h2]
    · right; simp [h1, h2]

/-- At least one output line per input line. -/
theorem resultLines_length_lower (lookup : Char → List Char) :
    ∀ ls : List (List Char), ls.length ≤ (resultLines lookup ls).length := by
  intro ls
  induction ls with
  | nil => simp [resultLines]
  | cons l ls ih =>
    show (l :: ls).length ≤ (processLineOpt lookup l ++ resultLines lookup ls).length
    rcases processLineOpt_shape lookup l with h | h <;>
      simp [h, List.length_append] <;> omega

/-- At most two output lines per input line. -/
theorem resultLines_length_upper (lookup : Char → List Char) :
    ∀ ls : List (List Char), (resultLines lookup ls).length ≤ 2 * ls.length := by
  intro ls
  induction ls with
  | nil => simp [resultLines]
  | cons l ls ih =>
    show (processLineOpt lookup l ++ resultLines lookup ls).length ≤ 2 * (l :: ls).length
    rcases processLineOpt_shape lookup l with h | h <;>
      simp [h, List.length_append] <;> omega

/-- The input lines form an order-preserving sublist of the output
lines: no line is reordered, merged, or dropped. -/
theorem resultLines_sublist (lookup : Char → List Char) :
    ∀ ls : List (List Char), List.Sublist ls (resultLines lookup ls) := by
  intro ls
  induction ls with
  | nil => simp [resultLines]
  | cons l ls ih =>
    show List.Sublist (l :: ls) (processLineOpt lookup l ++ resultLines lookup ls)
    rcases processLineOpt_shape lookup l with h | h
    · rw [h]
      exact List.Sublist.cons₂ l ih
    · rw [h]
      exact List.Sublist.cons _ (List.Sublist.cons₂ l ih)

/-- Splitting on newlines never yields the empty list of lines. -/
theorem splitNl_ne_nil : ∀ s : List Char, splitNl s ≠ [] := by
  intro s
  cases s with
  | nil => simp [splitNl]
  | cons c cs =>
    unfold splitNl
    by_cases h : c = '\n'
    · simp [h]
    · simp only [h, if_false]
      cases splitNl cs <;> simp

/-- No line produced by `splitNl` contains a newline. -/
theorem mem_splitNl_no_nl :
    ∀ (s : List Char) (l : List Char), l ∈ splitNl s → ('\n' : Char) ∉ l := by
  intro s
  induction s with
  | nil =>
    intro l hl
    simp [splitNl] at hl
    simp [hl]
  | cons c cs ih =>
    intro l hl
    unfold splitNl at hl
    by_cases h : c = '\n'
    · simp only [h, if_true] at hl
      rcases List.mem_cons.mp hl with h1 | h1
      · simp [h1]
      · exact ih l h1
    · simp only [h, if_false] at hl
      cases hsp : splitNl cs with
      | nil => exact absurd hsp (splitNl_ne_nil cs)
      | cons m ms =>
        rw [hsp] at hl
        rcases List.mem_cons.mp hl with h1 | h1
        · subst h1
          intro hmem
          rcases List.mem_cons.mp hmem with h2 | h2
          · exact h h2.symm
          · exact ih m (by rw [hsp]; exact List.mem_cons_self m ms) h2
        · exact ih l (by rw [hsp]; exact List.mem_cons_of_mem m h1)

/-- A newline-free line splits to itself. -/
theorem splitNl_of_no_nl :
    ∀ l : List Char, ('\n' : Char) ∉ l → splitNl l = [l] := by
  intro l
  induction l with
  | nil => intro _; simp [splitNl]
  | cons c cs ih =>
    intro h
    have hc : c ≠ '\n' := fun hcn => h (hcn ▸ List.mem_cons_self c cs)
    have hcs : ('\n' : Char) ∉ cs := fun hm => h (List.mem_cons_of_mem c hm)
    unfold splitNl
    simp only [hc, if_false]
    rw [ih hcs]

/-- The cons case of `splitNl` for a non-newline head, once the tail's
split is known. -/
theorem splitNl_cons_ne (c : Char) (cs l : List Char) (ls : List (List Char))
    (hc : c ≠ '\n') (hsp : splitNl cs = l :: ls) :
    splitNl (c :: cs) = (c :: l) :: ls := by
  unfold splitNl
  rw [if_neg hc, hsp]

/-- Splitting a newline-free prefix glued by a newline peels it off. -/
theorem splitNl_append_nl :
    ∀ (l r : List Char), ('\n' : Char) ∉ l →
      splitNl (l ++ '\n' :: r) = l :: splitNl r := by
  intro l
  induction l with
  | nil => intro r _; simp [splitNl]
  | cons c cs ih =>
    intro r h
    have hc : c ≠ '\n' := fun hcn => h (hcn ▸ List.mem_cons_self c cs)
    have hcs : ('\n' : Char) ∉ cs := fun hm => h (List.mem_cons_of_mem c hm)
    show splitNl (c :: (cs ++ '\n' :: r)) = (c :: cs) :: splitNl r
    exact splitNl_cons_ne c (cs ++ '\n' :: r) cs (splitNl r) hc (ih r hcs)

/-- Joining newline-free lines and splitting again is the identity. -/
theorem splitNl_joinNl :
    ∀ ls : List (List Char), ls ≠ [] → (∀ l ∈ ls, ('\n' : Char) ∉ l) →
      splitNl (joinNl ls) = ls := by
  intro ls
  induction ls with
  | nil => intro h _; exact absurd rfl h
  | cons l ls ih =>
    intro _ hnl
    cases ls with
    | nil =>
      show splitNl (joinNl [l]) = [l]
      rw [joinNl]
      exact splitNl_of_no_nl l (hnl l (List.mem_cons_self l []))
    | cons l2 ls2 =>
      show splitNl (joinNl (l :: l2 :: ls2)) = l :: l2 :: ls2
      rw [joinNl]
      rw [splitNl_append_nl l (joinNl (l2 :: ls2)) (hnl l (List.mem_cons_self _ _))]
      rw [ih (by simp) (fun m hm => hnl m (List.mem_cons_of_mem l hm))]

/-- One loop step never introduces a newline when neither the scanned
character nor its token contains one. -/
theorem no_nl_pyStep (lookup : Char → List Char) (c : Char)
    (hc : c ≠ '\n') (hlk : ('\n' : Char) ∉ lookup c) :
    ('\n' : Char) ∉ pyStep lookup c := by
  unfold pyStep
  by_cases h1 : isChinese c
  · simp only [h1, if_true]
    intro hm
    rcases List.mem_append.mp hm with h2 | h2
    · exact hlk h2
    · simp at h2
  · by_cases h2 : isPySpace c
    · simp only [h1, if_false, h2, if_true]
      intro hm
      simp at hm
      exact hc hm.symm
    · simp [h1, h2]

/-- The pinyin line of a newline-free line is newline-free. -/
theorem no_nl_pinyinLineOpt (lookup : Char → List Char)
    (hlk : ∀ c, ('\n' : Char) ∉ lookup c) :
    ∀ l : List Char, ('\n' : Char) ∉ l →
      ('\n' : Char) ∉ pinyinLineOpt lookup l := by
  intro l
  induction l with
  | nil => intro _; simp [pinyinLineOpt]
  | cons c cs ih =>
    intro h hm
    have hc : c ≠ '\n' := fun hcn => h (hcn ▸ List.mem_cons_self c cs)
    have hcs : ('\n' : Char) ∉ cs := fun hx => h (List.mem_cons_of_mem c hx)
    rcases List.mem_append.mp hm with h1 | h1
    · exact no_nl_pyStep lookup c hc (hlk c) h1
    · exact ih hcs h1

/-- `rstrip` only removes characters, so it preserves newline-freedom. -/
theorem no_nl_rstrip (s : List Char) (h : ('\n' : Char) ∉ s) :
    ('\n' : Char) ∉ rstrip s := by
  intro hm
  unfold rstrip at hm
  rw [List.mem_reverse] at hm
  have := (List.dropWhile_sublist isPySpace).subset hm
  rw [List.mem_reverse] at this
  exact h this

/-- Every output line of newline-free input lines is newline-free. -/
theorem no_nl_resultLines (lookup : Char → List Char)
    (hlk : ∀ c, ('\n' : Char) ∉ lookup c) :
    ∀ ls : List (List Char), (∀ l ∈ ls, ('\n' : Char) ∉ l) →
      ∀ m ∈ resultLines lookup ls, ('\n' : Char) ∉ m := by
  intro ls
  induction ls with
  | nil => intro _ m hm; simp [resultLines] at hm
  | cons l ls ih =>
    intro h m hm
    have hl : ('\n' : Char) ∉ l := h l (List.mem_cons_self l ls)
    rcases List.mem_append.mp hm with h1 | h1
    · rcases processLineOpt_shape lookup l with hs | hs <;> rw [hs] at h1
      · simp at h1
        exact h1 ▸ hl
      · rcases List.mem_cons.mp h1 with h2 | h2
        · exact h2 ▸ no_nl_rstrip _ (no_nl_pinyinLineOpt lookup hlk l hl)
        · simp at h2
          exact h2 ▸ hl
    · exact ih (fun x hx => h x (List.mem_cons_of_mem l hx)) m h1

/-- A nonempty document yields a nonempty list of output lines. -/
theorem resultLines_ne_nil (lookup : Char → List Char)
    (ls : List (List Char)) (h : ls ≠ []) : resultLines lookup ls ≠ [] := by
  cases ls with
  | nil => exact absurd rfl h
  | cons l ls =>
    show processLineOpt lookup l ++ resultLines lookup ls ≠ []
    rcases processLineOpt_shape lookup l with hs | hs <;> simp [hs]

/-- C7: confirmed.  Reading the output of
`add_pinyin_preserve_format_optimized` back as lines (for any lookup
whose tokens contain no newline, as pinyin tokens do not) gives exactly
the accumulated `result_lines`; the output has between N and 2N lines,
the N input lines occur in it, in order, as a sublist (none reordered,
merged, or dropped), and each input line is emitted exactly once by its
own block — alone or right after its single annotation line. -/
theorem c7_order_preservation (lookup : Char → List Char) (text : List Char)
    (hlk : ∀ c, ('\n' : Char) ∉ lookup c) :
    splitNl (add_pinyin_preserve_format_optimized lookup text) =
      resultLines lookup (splitNl text) ∧
    (splitNl text).length ≤ (resultLines lookup (splitNl text)).length ∧
    (resultLines lookup (splitNl text)).length ≤ 2 * (splitNl text).length ∧
    List.Sublist (splitNl text) (resultLines lookup (splitNl text)) ∧
    ∀ l ∈ splitNl text, processLineOpt lookup l = [l] ∨
      ∃ a, processLineOpt lookup l = [a, l] := by
  refine ⟨?_, resultLines_length_lower lookup _, resultLines_length_upper lookup _,
    resultLines_sublist lookup _, ?_⟩
  · show splitNl (joinNl (resultLines lookup (splitNl text))) = _
    exact splitNl_joinNl _
      (resultLines_ne_nil lookup _ (splitNl_ne_nil text))
      (no_nl_resultLines lookup hlk _ (mem_splitNl_no_nl text))
  · intro l _
    rcases processLineOpt_shape lookup l with hs | hs
    · exact Or.inl hs
    · exact Or.inr ⟨rstrip (pinyinLineOpt lookup l), hs⟩

/-- The example lookup produces newline-free tokens. -/
theorem exLookup_no_nl : ∀ c : Char, ('\n' : Char) ∉ exLookup c := by
  intro c
  unfold exLookup
  by_cases h1 : c = '你'
  · simp [h1]
  · by_cases h2 : c = '好'
    · simp [h1, h2]
    · simp [h1, h2]

/-- Witness for C7 on the two-line document 你 ⏎ hi. -/
theorem c7_order_preservation_witness :
    splitNl (add_pinyin_preserve_format_optimized exLookup ['你', '\n', 'h', 'i']) =
      resultLines exLookup (splitNl ['你', '\n', 'h', 'i']) ∧
    List.Sublist (splitNl ['你', '\n', 'h', 'i'])
      (resultLines exLookup (splitNl ['你', '\n', 'h', 'i'])) :=
  ⟨(c7_order_preservation exLookup ['你', '\n', 'h', 'i'] exLookup_no_nl).1,
   (c7_order_preservation exLookup ['你', '\n', 'h', 'i'] exLookup_no_nl).2.2.2.1⟩
